import Mathlib

/-!
Shallow embedding of the VirtualCoffee beverages API
(src/VirtualCoffe/drinksApi/app/main.py).

Strings are modelled as lists of characters; Python's `str.strip` and
`str.lower` become `strip` and `lower` below.  Prices (Python floats) are
modelled as rationals; `round(v, 2)` becomes `round2`, using
round-half-to-even as Python's `round` does.  The module-level mutable
state (`beverages_db`, `next_id`) becomes an explicit `StoreState` passed
to and returned from every operation; raising `HTTPException` becomes
returning an `Err` value together with the unchanged state.
-/

namespace VirtualCoffee

/-- A string, as Python sees it: a list of characters. -/
abbrev Str := List Char

/-- The ASCII whitespace characters removed by Python's `str.strip()`:
space, tab, newline, carriage return, vertical tab, form feed. -/
def isSpaceChar (c : Char) : Bool :=
  c.toNat = 32 || c.toNat = 9 || c.toNat = 10 || c.toNat = 13 ||
    c.toNat = 11 || c.toNat = 12

/-- Python `s.strip()`: drop whitespace from both ends. -/
def strip (s : Str) : Str :=
  ((s.dropWhile isSpaceChar).reverse.dropWhile isSpaceChar).reverse

/-- Python `s.lower()` on ASCII text: lowercase each character. -/
def lower (s : Str) : Str :=
  s.map Char.toLower

/-- Round-half-to-even of a rational to an integer (Python's `round`). -/
def roundHalfEven (q : ℚ) : ℤ :=
  let f := q.floor
  let r := q - (f : ℚ)
  if r < 1/2 then f
  else if 1/2 < r then f + 1
  else if f % 2 = 0 then f else f + 1

/-- Python `round(v, 2)`. -/
def round2 (q : ℚ) : ℚ :=
  (roundHalfEven (100 * q) : ℚ) / 100

/-- Raw input fields of a `Beverage` request body (pre-validation). -/
structure Candidate where
  name : Str
  size : Str
  price : ℚ
deriving DecidableEq, Repr

/-- A `Beverage` that passed pydantic validation: `name` is stripped,
`price` rounded to 2 decimals. -/
structure ValidBeverage where
  name : Str
  size : Str
  price : ℚ
deriving DecidableEq, Repr

/-- Raw fields of a `BeverageUpdate` request body: every field optional. -/
structure UpdateCandidate where
  name : Option Str
  size : Option Str
  price : Option ℚ
deriving DecidableEq, Repr

/-- The domain validation failures of the spec's taxonomy. -/
inductive VErr where
  | EmptyName
  | InvalidSize
  | InvalidPrice
deriving DecidableEq, Repr

/-- The full failure taxonomy: validation, duplicate-name conflict,
missing id or name. -/
inductive Err where
  | validation (e : VErr)
  | conflict
  | notFound
deriving DecidableEq, Repr

/-- `Beverage.name`: `Field(min_length=1, max_length=100)` on the raw
string, then the `name_must_not_be_empty` validator, which rejects a
string that strips to empty and returns the stripped string. -/
def validateName (n : Str) : Except VErr Str :=
  if n.length < 1 then .error .EmptyName
  else if 100 < n.length then .error .EmptyName
  else if strip n = [] then .error .EmptyName
  else .ok (strip n)

/-- The regex constraint on `size`: exactly small, medium or large. -/
def isValidSize (z : Str) : Bool :=
  z == "small".data || z == "medium".data || z == "large".data

/-- `Beverage.size` validation. -/
def validateSize (z : Str) : Except VErr Str :=
  if isValidSize z then .ok z else .error .InvalidSize

/-- `Beverage.price`: `Field(gt=0, le=100)` and the
`price_must_be_positive` validator, which returns `round(v, 2)`. -/
def validatePrice (p : ℚ) : Except VErr ℚ :=
  if p ≤ 0 then .error .InvalidPrice
  else if 100 < p then .error .InvalidPrice
  else .ok (round2 p)

/-- Pydantic validation of a full `Beverage` body. -/
def validateBeverage (c : Candidate) : Except VErr ValidBeverage :=
  match validateName c.name, validateSize c.size, validatePrice c.price with
  | .ok n, .ok z, .ok p => .ok ⟨n, z, p⟩
  | .error e, _, _ => .error e
  | _, .error e, _ => .error e
  | _, _, .error e => .error e

/-- `BeverageUpdate.name`: if present, raw length in 1..100 (no strip
validator on the update model). -/
def updNameOk : Option Str → Bool
  | none => true
  | some n => decide (1 ≤ n.length) && decide (n.length ≤ 100)

/-- `BeverageUpdate.size`: if present, the same regex as `Beverage`. -/
def updSizeOk : Option Str → Bool
  | none => true
  | some z => isValidSize z

/-- `BeverageUpdate.price`: if present, `gt=0, le=100` (no rounding at
validation time). -/
def updPriceOk : Option ℚ → Bool
  | none => true
  | some p => decide (0 < p) && decide (p ≤ 100)

/-- Pydantic validation of a `BeverageUpdate` body: field constraints
only, the values pass through unchanged. -/
def validateUpdate (u : UpdateCandidate) : Except VErr UpdateCandidate :=
  if !updNameOk u.name then .error .EmptyName
  else if !updSizeOk u.size then .error .InvalidSize
  else if !updPriceOk u.price then .error .InvalidPrice
  else .ok u

/-- A stored record: the dict `{id, name, size, price}` in `beverages_db`. -/
structure BeverageRec where
  id : Nat
  name : Str
  size : Str
  price : ℚ
deriving DecidableEq, Repr

/-- The module state: `beverages_db` and `next_id`. -/
structure StoreState where
  db : List BeverageRec
  nextId : Nat
deriving DecidableEq, Repr

/-- The initial state: empty collection, counter at 1. -/
def initState : StoreState := ⟨[], 1⟩

/-- `reset_database`: clear the collection, counter back to 1. -/
def reset_database (_ : StoreState) : StoreState := initState

/-- The duplicate scan of `add_beverage`: some stored record whose
lowercased name equals `nl`. -/
def hasLowerName (db : List BeverageRec) (nl : Str) : Bool :=
  db.any fun b => lower b.name == nl

/-- `POST /menu` (`add_beverage`): validate, reject a case-insensitive
duplicate name, else append with id `next_id` and increment the counter. -/
def add_beverage (s : StoreState) (c : Candidate) :
    Except Err BeverageRec × StoreState :=
  match validateBeverage c with
  | .error e => (.error (.validation e), s)
  | .ok v =>
    if hasLowerName s.db (lower v.name) then (.error .conflict, s)
    else
      let nb : BeverageRec := ⟨s.nextId, v.name, v.size, v.price⟩
      (.ok nb, ⟨s.db ++ [nb], s.nextId + 1⟩)

/-- `GET /menu` (`get_menu`): conjunctive optional filters.  Python's
`if size:` is truthiness, so an empty size string applies no filter;
the price bounds test `is not None` and always apply when present. -/
def get_menu (s : StoreState) (size : Option Str)
    (min_price max_price : Option ℚ) : List BeverageRec :=
  let f1 := match size with
    | some sz => if sz.isEmpty then s.db else s.db.filter fun b => b.size == sz
    | none => s.db
  let f2 := match min_price with
    | some m => f1.filter fun b => decide (m ≤ b.price)
    | none => f1
  match max_price with
  | some m => f2.filter fun b => decide (b.price ≤ m)
  | none => f2

/-- `GET /menu/{name}` (`get_beverage_by_name`): lowercase and strip the
query, return the first record whose lowercased stored name matches. -/
def get_beverage_by_name (s : StoreState) (n : Str) : Except Err BeverageRec :=
  match s.db.find? (fun b => lower b.name == strip (lower n)) with
  | some b => .ok b
  | none => .error .notFound

/-- The duplicate scan of `update_beverage`: some record with a different
id whose lowercased name equals `nl`. -/
def hasOtherLowerName (db : List BeverageRec) (bid : Nat) (nl : Str) : Bool :=
  db.any fun o => o.id != bid && lower o.name == nl

/-- Replace the first record with id `bid` by `nb`; `none` if absent. -/
def setFirstById : List BeverageRec → Nat → BeverageRec →
    Option (List BeverageRec)
  | [], _, _ => none
  | b :: rest, bid, nb =>
    if b.id = bid then some (nb :: rest)
    else (setFirstById rest bid nb).map (b :: ·)

/-- `PUT /menu/{beverage_id}` (`update_beverage`): pydantic-validate the
body, find the record, reject a duplicate name among the other records,
else overwrite name, size and price in place, keeping the id. -/
def update_beverage (s : StoreState) (bid : Nat) (c : Candidate) :
    Except Err BeverageRec × StoreState :=
  match validateBeverage c with
  | .error e => (.error (.validation e), s)
  | .ok v =>
    match setFirstById s.db bid ⟨bid, v.name, v.size, v.price⟩ with
    | none => (.error .notFound, s)
    | some db2 =>
      if hasOtherLowerName s.db bid (lower v.name) then (.error .conflict, s)
      else (.ok ⟨bid, v.name, v.size, v.price⟩, ⟨db2, s.nextId⟩)

/-- The in-place mutation of `partial_update_beverage`: each present
field overwrites the stored one (name stripped, price rounded). -/
def applyUpdate (b : BeverageRec) (u : UpdateCandidate) : BeverageRec :=
  let b1 := match u.name with
    | some n => { b with name := strip n }
    | none => b
  let b2 := match u.size with
    | some z => { b1 with size := z }
    | none => b1
  match u.price with
  | some p => { b2 with price := round2 p }
  | none => b2

/-- Patch the first record with id `bid`; `none` if absent. -/
def patchFirstById : List BeverageRec → Nat → UpdateCandidate →
    Option (BeverageRec × List BeverageRec)
  | [], _, _ => none
  | b :: rest, bid, u =>
    if b.id = bid then
      let nb := applyUpdate b u
      some (nb, nb :: rest)
    else (patchFirstById rest bid u).map fun p => (p.1, b :: p.2)

/-- `PATCH /menu/{beverage_id}` (`partial_update_beverage`):
pydantic-validate the partial body, find the record, apply the present
fields in place.  The handler performs no duplicate-name scan and no
stripped-emptiness re-check. -/
def partial_update_beverage (s : StoreState) (bid : Nat)
    (u : UpdateCandidate) : Except Err BeverageRec × StoreState :=
  match validateUpdate u with
  | .error e => (.error (.validation e), s)
  | .ok u2 =>
    match patchFirstById s.db bid u2 with
    | none => (.error .notFound, s)
    | some (nb, db2) => (.ok nb, ⟨db2, s.nextId⟩)

/-- Remove the first record with id `bid`; `none` if absent. -/
def removeFirstById : List BeverageRec → Nat → Option (List BeverageRec)
  | [], _ => none
  | b :: rest, bid =>
    if b.id = bid then some rest
    else (removeFirstById rest bid).map (b :: ·)

/-- `DELETE /menu/{beverage_id}` (`delete_beverage`). -/
def delete_beverage (s : StoreState) (bid : Nat) :
    Except Err Unit × StoreState :=
  match removeFirstById s.db bid with
  | none => (.error .notFound, s)
  | some db2 => (.ok (), ⟨db2, s.nextId⟩)

/-- One state-mutating operation of the store. -/
inductive Op where
  | create (c : Candidate)
  | replace (bid : Nat) (c : Candidate)
  | patch (bid : Nat) (u : UpdateCandidate)
  | del (bid : Nat)
  | reset
deriving DecidableEq, Repr

/-- The state after one operation (errors leave the state unchanged,
exactly as the handlers raise before mutating). -/
def applyState (s : StoreState) : Op → StoreState
  | .create c => (add_beverage s c).2
  | .replace bid c => (update_beverage s bid c).2
  | .patch bid u => (partial_update_beverage s bid u).2
  | .del bid => (delete_beverage s bid).2
  | .reset => reset_database s

/-- The state after a sequence of operations. -/
def runOps (s : StoreState) : List Op → StoreState
  | [] => s
  | op :: rest => runOps (applyState s op) rest

/-- The ids handed out by the successful creates of a trace, in order. -/
def assignedIds (s : StoreState) : List Op → List Nat
  | [] => []
  | op :: rest =>
    (match op with
     | .create c =>
       match (add_beverage s c).1 with
       | .ok _ => [s.nextId]
       | .error _ => []
     | _ => []) ++ assignedIds (applyState s op) rest

/-- All stored ids are distinct. -/
def uniqIds (db : List BeverageRec) : Prop :=
  (db.map fun b => b.id).Nodup

/-- No two stored records have case-insensitively equal names. -/
def uniqNames (db : List BeverageRec) : Prop :=
  (db.map fun b => lower b.name).Nodup

/-- Every stored id is below the counter. -/
def idsBelow (s : StoreState) : Prop :=
  ∀ b ∈ s.db, b.id < s.nextId

/-- The store's data invariant. -/
def StoreInv (s : StoreState) : Prop :=
  uniqIds s.db ∧ uniqNames s.db ∧ idsBelow s

/-- The spec's description of the list filters, one conjunct per supplied
filter: size equal, price at least `min_price`, price at most `max_price`
(both bounds inclusive); an absent filter imposes no constraint. -/
def menuFilterSpec (size : Option Str) (min_price max_price : Option ℚ)
    (b : BeverageRec) : Bool :=
  (match size with
   | some z => b.size == z
   | none => true) &&
  (match min_price with
   | some m => decide (m ≤ b.price)
   | none => true) &&
  (match max_price with
   | some m => decide (b.price ≤ m)
   | none => true)

deriving instance DecidableEq for Except

instance (db : List BeverageRec) : Decidable (uniqIds db) := by
  unfold uniqIds; infer_instance

instance (db : List BeverageRec) : Decidable (uniqNames db) := by
  unfold uniqNames; infer_instance

instance (s : StoreState) : Decidable (idsBelow s) := by
  unfold idsBelow; infer_instance

instance (s : StoreState) : Decidable (StoreInv s) := by
  unfold StoreInv; infer_instance

/-- A concrete store with two validly created records, used by the
concrete scenarios below. -/
def twoDrinks : StoreState :=
  ⟨[⟨1, "Latte".data, "small".data, 2⟩, ⟨2, "Mocha".data, "small".data, 3⟩], 3⟩

/-! ### Basic facts about validation -/

theorem validateName_ok {n m : Str} (h : validateName n = .ok m) :
    m = strip n := by
  unfold validateName at h
  split at h
  · exact absurd h (by simp)
  · split at h
    · exact absurd h (by simp)
    · split at h
      · exact absurd h (by simp)
      · exact (Except.ok.injEq _ _ ▸ h).symm

theorem validateBeverage_ok {c : Candidate} {v : ValidBeverage}
    (h : validateBeverage c = .ok v) :
    v.name = strip c.name ∧ v.size = c.size ∧ v.price = round2 c.price ∧
      0 < c.price ∧ c.price ≤ 100 := by
  unfold validateBeverage at h
  cases hn : validateName c.name with
  | error e => rw [hn] at h; exact absurd h (by simp)
  | ok n =>
    cases hz : validateSize c.size with
    | error e => rw [hn, hz] at h; exact absurd h (by simp)
    | ok z =>
      cases hp : validatePrice c.price with
      | error e => rw [hn, hz, hp] at h; exact absurd h (by simp)
      | ok p =>
        rw [hn, hz, hp] at h
        simp only [Except.ok.injEq] at h
        subst h
        have hz2 : z = c.size := by
          unfold validateSize at hz
          split at hz
          · exact (Except.ok.injEq _ _ ▸ hz).symm
          · exact absurd hz (by simp)
        have hp2 : p = round2 c.price ∧ 0 < c.price ∧ c.price ≤ 100 := by
          unfold validatePrice at hp
          split at hp
          · exact absurd hp (by simp)
          · split at hp
            · exact absurd hp (by simp)
            · refine ⟨(Except.ok.injEq _ _ ▸ hp).symm, by linarith, by linarith⟩
        exact ⟨validateName_ok hn, hz2, hp2.1, hp2.2⟩

theorem updNameOk_iff (o : Option Str) :
    updNameOk o = true ↔ ∀ n, o = some n → 1 ≤ n.length ∧ n.length ≤ 100 := by
  cases o <;> simp [updNameOk]

theorem updSizeOk_iff (o : Option Str) :
    updSizeOk o = true ↔ ∀ z, o = some z → isValidSize z = true := by
  cases o <;> simp [updSizeOk]

theorem updPriceOk_iff (o : Option ℚ) :
    updPriceOk o = true ↔ ∀ p, o = some p → 0 < p ∧ p ≤ 100 := by
  cases o <;> simp [updPriceOk]

theorem validateUpdate_ok_bool (u : UpdateCandidate) :
    validateUpdate u = .ok u ↔
      updNameOk u.name = true ∧ updSizeOk u.size = true ∧
        updPriceOk u.price = true := by
  unfold validateUpdate
  constructor
  · intro h
    by_cases h1 : updNameOk u.name = true
    · by_cases h2 : updSizeOk u.size = true
      · by_cases h3 : updPriceOk u.price = true
        · exact ⟨h1, h2, h3⟩
        · simp [h1, h2, h3] at h
      · simp [h1, h2] at h
    · simp [h1] at h
  · rintro ⟨h1, h2, h3⟩
    simp [h1, h2, h3]

theorem validateUpdate_ok_iff (u : UpdateCandidate) :
    validateUpdate u = .ok u ↔
      (∀ n, u.name = some n → 1 ≤ n.length ∧ n.length ≤ 100) ∧
      (∀ z, u.size = some z → isValidSize z = true) ∧
      (∀ p, u.price = some p → 0 < p ∧ p ≤ 100) := by
  rw [validateUpdate_ok_bool, updNameOk_iff, updSizeOk_iff, updPriceOk_iff]

/-! ### Facts about the duplicate scans and the first-match helpers -/

theorem hasLowerName_iff (db : List BeverageRec) (nl : Str) :
    hasLowerName db nl = true ↔ ∃ b ∈ db, lower b.name = nl := by
  unfold hasLowerName
  simp [List.any_eq_true]

theorem hasOtherLowerName_iff (db : List BeverageRec) (bid : Nat) (nl : Str) :
    hasOtherLowerName db bid nl = true ↔
      ∃ o ∈ db, o.id ≠ bid ∧ lower o.name = nl := by
  unfold hasOtherLowerName
  simp [List.any_eq_true]

theorem setFirstById_none {db : List BeverageRec} {bid : Nat} {nb : BeverageRec} :
    setFirstById db bid nb = none ↔ ∀ b ∈ db, b.id ≠ bid := by
  induction db with
  | nil => simp [setFirstById]
  | cons b rest ih =>
    by_cases hb : b.id = bid
    · simp [setFirstById, hb]
    · simp [setFirstById, hb, ih]

theorem setFirstById_some {db : List BeverageRec} {bid : Nat} {nb : BeverageRec}
    {db2 : List BeverageRec} (h : setFirstById db bid nb = some db2) :
    ∃ l1 b l2, db = l1 ++ b :: l2 ∧ b.id = bid ∧ (∀ a ∈ l1, a.id ≠ bid) ∧
      db2 = l1 ++ nb :: l2 := by
  induction db generalizing db2 with
  | nil => exact absurd h (by simp [setFirstById])
  | cons b rest ih =>
    by_cases hb : b.id = bid
    · refine ⟨[], b, rest, by simp, hb, by simp, ?_⟩
      simp [setFirstById, hb] at h
      exact h.symm
    · simp only [setFirstById, hb, if_false, Option.map_eq_some'] at h
      obtain ⟨rest2, hrest, hdb2⟩ := h
      obtain ⟨l1, a, l2, h1, h2, h3, h4⟩ := ih hrest
      exact ⟨b :: l1, a, l2, by simp [h1], h2,
        by simpa [hb] using h3, by simp [← hdb2, h4]⟩

theorem patchFirstById_none {db : List BeverageRec} {bid : Nat}
    {u : UpdateCandidate} :
    patchFirstById db bid u = none ↔ ∀ b ∈ db, b.id ≠ bid := by
  induction db with
  | nil => simp [patchFirstById]
  | cons b rest ih =>
    by_cases hb : b.id = bid
    · simp [patchFirstById, hb]
    · simp [patchFirstById, hb, ih]

theorem patchFirstById_some {db : List BeverageRec} {bid : Nat}
    {u : UpdateCandidate} {nb : BeverageRec} {db2 : List BeverageRec}
    (h : patchFirstById db bid u = some (nb, db2)) :
    ∃ l1 b l2, db = l1 ++ b :: l2 ∧ b.id = bid ∧ (∀ a ∈ l1, a.id ≠ bid) ∧
      nb = applyUpdate b u ∧ db2 = l1 ++ nb :: l2 := by
  induction db generalizing nb db2 with
  | nil => exact absurd h (by simp [patchFirstById])
  | cons b rest ih =>
    by_cases hb : b.id = bid
    · refine ⟨[], b, rest, by simp, hb, by simp, ?_, ?_⟩
      · simp [patchFirstById, hb] at h
        exact h.1.symm
      · simp [patchFirstById, hb] at h
        simp [← h.1, ← h.2]
    · simp only [patchFirstById, hb, if_false, Option.map_eq_some'] at h
      obtain ⟨⟨nb2, rest2⟩, hrest, hpair⟩ := h
      simp only [Prod.mk.injEq] at hpair
      obtain ⟨l1, a, l2, h1, h2, h3, h4, h5⟩ := ih hrest
      exact ⟨b :: l1, a, l2, by simp [h1], h2, by simpa [hb] using h3,
        hpair.1 ▸ h4, by simp [← hpair.2, ← hpair.1, h5]⟩

theorem removeFirstById_none {db : List BeverageRec} {bid : Nat} :
    removeFirstById db bid = none ↔ ∀ b ∈ db, b.id ≠ bid := by
  induction db with
  | nil => simp [removeFirstById]
  | cons b rest ih =>
    by_cases hb : b.id = bid
    · simp [removeFirstById, hb]
    · simp [removeFirstById, hb, ih]

theorem removeFirstById_some {db : List BeverageRec} {bid : Nat}
    {db2 : List BeverageRec} (h : removeFirstById db bid = some db2) :
    ∃ l1 b l2, db = l1 ++ b :: l2 ∧ b.id = bid ∧ db2 = l1 ++ l2 := by
  induction db generalizing db2 with
  | nil => exact absurd h (by simp [removeFirstById])
  | cons b rest ih =>
    by_cases hb : b.id = bid
    · refine ⟨[], b, rest, by simp, hb, ?_⟩
      simp [removeFirstById, hb] at h
      exact h.symm
    · simp only [removeFirstById, hb, if_false, Option.map_eq_some'] at h
      obtain ⟨rest2, hrest, hdb2⟩ := h
      obtain ⟨l1, a, l2, h1, h2, h3⟩ := ih hrest
      exact ⟨b :: l1, a, l2, by simp [h1], h2, by simp [← hdb2, h3]⟩

/-! ### Case analyses of the operations -/

theorem validateUpdate_ok_eq {u u2 : UpdateCandidate}
    (h : validateUpdate u = .ok u2) : u2 = u := by
  unfold validateUpdate at h
  split at h
  · exact absurd h (by simp)
  · split at h
    · exact absurd h (by simp)
    · split at h
      · exact absurd h (by simp)
      · exact (Except.ok.injEq _ _ ▸ h).symm

theorem add_beverage_ok {s : StoreState} {c : Candidate} {r : BeverageRec}
    {s2 : StoreState} (h : add_beverage s c = (.ok r, s2)) :
    ∃ v, validateBeverage c = .ok v ∧
      hasLowerName s.db (lower v.name) = false ∧
      r = ⟨s.nextId, v.name, v.size, v.price⟩ ∧
      s2 = ⟨s.db ++ [r], s.nextId + 1⟩ := by
  unfold add_beverage at h
  split at h
  · exact absurd h (by simp)
  · rename_i v hv
    split at h
    · exact absurd h (by simp)
    · rename_i hl
      simp only [Prod.mk.injEq, Except.ok.injEq] at h
      obtain ⟨h1, h2⟩ := h
      exact ⟨v, hv, Bool.not_eq_true _ ▸ hl, h1.symm, by rw [← h2, h1]⟩

theorem add_beverage_error_state {s : StoreState} {c : Candidate} {e : Err}
    (h : (add_beverage s c).1 = .error e) : (add_beverage s c).2 = s := by
  unfold add_beverage
  unfold add_beverage at h
  split
  · rfl
  · rename_i v hv
    rw [hv] at h
    dsimp only at h
    split at h
    · rename_i hl
      rw [if_pos hl]
    · rename_i hl
      rw [if_neg hl]
      exact absurd h (by simp)

theorem update_beverage_ok {s : StoreState} {bid : Nat} {c : Candidate}
    {r : BeverageRec} {s2 : StoreState}
    (h : update_beverage s bid c = (.ok r, s2)) :
    ∃ v l1 b l2, validateBeverage c = .ok v ∧
      s.db = l1 ++ b :: l2 ∧ b.id = bid ∧ (∀ a ∈ l1, a.id ≠ bid) ∧
      hasOtherLowerName s.db bid (lower v.name) = false ∧
      r = ⟨bid, v.name, v.size, v.price⟩ ∧
      s2 = ⟨l1 ++ r :: l2, s.nextId⟩ := by
  unfold update_beverage at h
  split at h
  · exact absurd h (by simp)
  · rename_i v hv
    split at h
    · exact absurd h (by simp)
    · rename_i db2 hf
      split at h
      · exact absurd h (by simp)
      · rename_i ho
        simp only [Prod.mk.injEq, Except.ok.injEq] at h
        obtain ⟨h1, h2⟩ := h
        obtain ⟨l1, b, l2, g1, g2, g3, g4⟩ := setFirstById_some hf
        exact ⟨v, l1, b, l2, hv, g1, g2, g3, Bool.not_eq_true _ ▸ ho,
          h1.symm, by rw [← h2, g4, h1]⟩

theorem update_beverage_error_state {s : StoreState} {bid : Nat}
    {c : Candidate} {e : Err}
    (h : (update_beverage s bid c).1 = .error e) :
    (update_beverage s bid c).2 = s := by
  unfold update_beverage
  unfold update_beverage at h
  split
  · rfl
  · rename_i v hv
    rw [hv] at h
    dsimp only at h
    split <;> rename_i hf
    · rfl
    · rw [hf] at h
      dsimp only at h
      split at h
      · rename_i ho
        rw [if_pos ho]
      · rename_i ho
        rw [if_neg ho]
        exact absurd h (by simp)

theorem partial_update_beverage_ok {s : StoreState} {bid : Nat}
    {u : UpdateCandidate} {r : BeverageRec} {s2 : StoreState}
    (h : partial_update_beverage s bid u = (.ok r, s2)) :
    ∃ l1 b l2, validateUpdate u = .ok u ∧
      s.db = l1 ++ b :: l2 ∧ b.id = bid ∧ (∀ a ∈ l1, a.id ≠ bid) ∧
      r = applyUpdate b u ∧ s2 = ⟨l1 ++ r :: l2, s.nextId⟩ := by
  unfold partial_update_beverage at h
  split at h
  · exact absurd h (by simp)
  · rename_i u2 hv
    have hu2 := validateUpdate_ok_eq hv
    subst hu2
    split at h
    · exact absurd h (by simp)
    · rename_i nb db2 hf
      simp only [Prod.mk.injEq, Except.ok.injEq] at h
      obtain ⟨h1, h2⟩ := h
      obtain ⟨l1, b, l2, g1, g2, g3, g4, g5⟩ := patchFirstById_some hf
      exact ⟨l1, b, l2, hv, g1, g2, g3, h1 ▸ g4, by rw [← h2, ← h1, g5]⟩

theorem partial_update_beverage_error_state {s : StoreState} {bid : Nat}
    {u : UpdateCandidate} {e : Err}
    (h : (partial_update_beverage s bid u).1 = .error e) :
    (partial_update_beverage s bid u).2 = s := by
  unfold partial_update_beverage
  unfold partial_update_beverage at h
  split
  · rfl
  · rename_i u2 hv
    rw [hv] at h
    dsimp only at h
    split <;> rename_i hf
    · rfl
    · rw [hf] at h
      exact absurd h (by simp)

theorem delete_beverage_ok {s : StoreState} {bid : Nat} {s2 : StoreState}
    (h : delete_beverage s bid = (.ok (), s2)) :
    ∃ l1 b l2, s.db = l1 ++ b :: l2 ∧ b.id = bid ∧
      s2 = ⟨l1 ++ l2, s.nextId⟩ := by
  unfold delete_beverage at h
  split at h
  · exact absurd h (by simp)
  · rename_i db2 hf
    simp only [Prod.mk.injEq] at h
    obtain ⟨l1, b, l2, g1, g2, g3⟩ := removeFirstById_some hf
    exact ⟨l1, b, l2, g1, g2, by rw [← h.2, g3]⟩

theorem delete_beverage_error_state {s : StoreState} {bid : Nat} {e : Err}
    (h : (delete_beverage s bid).1 = .error e) :
    (delete_beverage s bid).2 = s := by
  unfold delete_beverage
  unfold delete_beverage at h
  split <;> rename_i hf
  · rfl
  · rw [hf] at h
    exact absurd h (by simp)

/-! ### The claims -/

/-- C10: `list` called with the empty string as size filter returns the
same sequence as `list` with no size filter at all: Python's `if size:`
treats the empty string as an absent filter. -/
theorem get_menu_empty_size_is_no_filter (s : StoreState)
    (min_price max_price : Option ℚ) :
    get_menu s (some []) min_price max_price =
      get_menu s none min_price max_price := rfl

/-- C9: price 0 and price 100.01 are rejected with
`ValidationError(InvalidPrice)`; price 100 and price 0.01 are accepted;
every accepted price `p` satisfies `0 < p ≤ 100` and the value the store
keeps for it is `round(p, 2)`. -/
theorem price_validation_boundaries :
    validatePrice 0 = .error .InvalidPrice ∧
    validatePrice (10001/100) = .error .InvalidPrice ∧
    validatePrice 100 = .ok 100 ∧
    validatePrice (1/100) = .ok (1/100) ∧
    (∀ p q, validatePrice p = .ok q → 0 < p ∧ p ≤ 100 ∧ q = round2 p) ∧
    (∀ s c r s2, add_beverage s c = (.ok r, s2) →
      r.price = round2 c.price) := by
  refine ⟨by with_unfolding_all rfl, by with_unfolding_all rfl,
    by with_unfolding_all rfl, by with_unfolding_all rfl, ?_, ?_⟩
  · intro p q h
    unfold validatePrice at h
    split at h
    · exact absurd h (by simp)
    · split at h
      · exact absurd h (by simp)
      · rename_i h1 h2
        exact ⟨not_le.mp h1, not_lt.mp h2, (Except.ok.injEq _ _ ▸ h).symm⟩
  · intro s c r s2 h
    obtain ⟨v, hv, _, hr, _⟩ := add_beverage_ok h
    rw [hr]
    exact (validateBeverage_ok hv).2.2.1

/-- Witness for C9: the general conjunct applied at the accepted price 50. -/
theorem price_validation_boundaries_witness :
    0 < (50 : ℚ) ∧ (50 : ℚ) ≤ 100 ∧ (50 : ℚ) = round2 50 :=
  price_validation_boundaries.2.2.2.2.1 50 50 (by with_unfolding_all rfl)

/-- C8: `replace` on an id no record holds fails with `NotFoundError`
and leaves the collection and the id counter unchanged. -/
theorem replace_missing_id_not_found (s : StoreState) (bid : Nat)
    (c : Candidate) (hid : ∀ b ∈ s.db, b.id ≠ bid)
    (hc : ∃ v, validateBeverage c = .ok v) :
    update_beverage s bid c = (.error .notFound, s) := by
  obtain ⟨v, hv⟩ := hc
  unfold update_beverage
  rw [hv]
  dsimp only
  rw [setFirstById_none.mpr hid]

/-- Witness for C8: replacing id 7 in a two-record store. -/
theorem replace_missing_id_not_found_witness :
    update_beverage twoDrinks 7 ⟨"Cortado".data, "small".data, 3⟩ =
      (.error .notFound, twoDrinks) :=
  replace_missing_id_not_found twoDrinks 7 ⟨"Cortado".data, "small".data, 3⟩
    (by decide)
    ⟨⟨"Cortado".data, "small".data, 3⟩, by with_unfolding_all rfl⟩

/-- C4: `create` with a candidate whose trimmed name equals some stored
record's name case-insensitively (any casing, with or without
surrounding whitespace) fails with `ConflictError(DuplicateName)` and
leaves the state unchanged. -/
theorem create_duplicate_name_conflict (s : StoreState) (c : Candidate)
    (b : BeverageRec) (hb : b ∈ s.db)
    (hc : ∃ v, validateBeverage c = .ok v)
    (hname : lower (strip c.name) = lower b.name) :
    add_beverage s c = (.error .conflict, s) := by
  obtain ⟨v, hv⟩ := hc
  have hvn := (validateBeverage_ok hv).1
  unfold add_beverage
  rw [hv]
  dsimp only
  have hl : hasLowerName s.db (lower v.name) = true :=
    (hasLowerName_iff _ _).mpr ⟨b, hb, by rw [hvn]; exact hname.symm⟩
  rw [if_pos hl]

/-- Witness for C4: creating " LATTE " over a stored "Latte". -/
theorem create_duplicate_name_conflict_witness :
    add_beverage twoDrinks ⟨" LATTE ".data, "large".data, 5⟩ =
      (.error .conflict, twoDrinks) :=
  create_duplicate_name_conflict twoDrinks ⟨" LATTE ".data, "large".data, 5⟩
    ⟨1, "Latte".data, "small".data, 2⟩ (by decide)
    ⟨⟨"LATTE".data, "large".data, 5⟩, by with_unfolding_all rfl⟩ (by decide)

/-- C6: after a successful `create`, `getByName` with the same name in
any casing and with or without surrounding whitespace succeeds and
returns the created record, whose name is the trimmed candidate name. -/
theorem create_then_get_by_name (s : StoreState) (c : Candidate)
    (r : BeverageRec) (s2 : StoreState) (q : Str)
    (hadd : add_beverage s c = (.ok r, s2))
    (hq : strip (lower q) = lower (strip c.name)) :
    get_beverage_by_name s2 q = .ok r ∧ r.name = strip c.name := by
  obtain ⟨v, hv, hl, hr, hs2⟩ := add_beverage_ok hadd
  have hvn := (validateBeverage_ok hv).1
  have hrname : r.name = strip c.name := by rw [hr]; exact hvn
  have hql : strip (lower q) = lower v.name := by
    rw [hq, hvn]
  refine ⟨?_, hrname⟩
  unfold get_beverage_by_name
  rw [hs2]
  dsimp only
  rw [List.find?_append]
  have h1 : List.find? (fun b => lower b.name == strip (lower q)) s.db
      = none := by
    rw [List.find?_eq_none]
    intro x hx
    simp only [beq_iff_eq, hql]
    intro hEq
    have hT := (hasLowerName_iff s.db (lower v.name)).mpr ⟨x, hx, hEq⟩
    rw [hl] at hT
    exact Bool.false_ne_true hT
  have h2 : List.find? (fun b => lower b.name == strip (lower q)) [r]
      = some r := by
    have hpr : (lower r.name == strip (lower q)) = true := by
      rw [hql, hrname, ← hvn]
      exact beq_self_eq_true _
    simp [List.find?, hpr]
  rw [h1, h2]
  rfl

/-- Witness for C6: create "Latte", then look up "  lAtTe ". -/
theorem create_then_get_by_name_witness :
    get_beverage_by_name ⟨[⟨1, "Latte".data, "small".data, 2⟩], 2⟩
        "  lAtTe ".data = .ok ⟨1, "Latte".data, "small".data, 2⟩ ∧
      (⟨1, "Latte".data, "small".data, 2⟩ : BeverageRec).name =
        strip "Latte".data :=
  create_then_get_by_name initState ⟨"Latte".data, "small".data, 2⟩
    ⟨1, "Latte".data, "small".data, 2⟩ ⟨[⟨1, "Latte".data, "small".data, 2⟩], 2⟩
    "  lAtTe ".data (by with_unfolding_all rfl) (by decide)

/-- Pointwise commutation of the three filter conjuncts. -/
theorem bool_and_rot (a b c : Bool) : (c && (b && a)) = (a && b && c) := by
  cases a <;> cases b <;> cases c <;> rfl

/-- C7: `list` with the optional filters returns, in insertion order,
exactly the records satisfying every supplied filter (size equal,
`min_price ≤ price`, `price ≤ max_price`, bounds inclusive); an absent
filter imposes no constraint, and an empty result is just the empty
sequence.  A supplied size filter means a nonempty size string (the
empty string counts as absent, see C10). -/
theorem get_menu_filters_conjunctively (s : StoreState) (size : Option Str)
    (min_price max_price : Option ℚ)
    (hsz : ∀ z, size = some z → z ≠ []) :
    get_menu s size min_price max_price =
      s.db.filter (menuFilterSpec size min_price max_price) := by
  unfold get_menu menuFilterSpec
  cases size with
  | none =>
    cases min_price <;> cases max_price <;>
      simp [List.filter_filter, Bool.and_comm]
  | some z =>
    have hz : z.isEmpty = false := by
      cases z with
      | nil => exact absurd rfl (hsz [] rfl)
      | cons a as => rfl
    cases min_price with
    | none =>
      cases max_price <;> simp [hz, List.filter_filter, Bool.and_comm]
    | some m1 =>
      cases max_price with
      | none => simp [hz, List.filter_filter, Bool.and_comm]
      | some m2 =>
        simp only [hz, Bool.false_eq_true, if_false, List.filter_filter]
        exact List.filter_congr fun x _ => bool_and_rot _ _ _

/-- Witness for C7: price window `[3, 5]` with a size filter. -/
theorem get_menu_filters_conjunctively_witness :
    (∀ z, (some "small".data : Option Str) = some z → z ≠ []) ∧
      get_menu twoDrinks (some "small".data) (some 3) (some 5) =
        twoDrinks.db.filter (menuFilterSpec (some "small".data) (some 3) (some 5)) :=
  ⟨by decide, get_menu_filters_conjunctively twoDrinks (some "small".data)
    (some 3) (some 5) (by decide)⟩

/-- C2 counterexample: the claim is false.  In a store holding "Latte"
(id 1) and "Mocha" (id 2), patching id 2 with the name "latte" — equal
to the other record's name under case-insensitive comparison — does not
fail with `ConflictError(DuplicateName)`; it succeeds and stores the
duplicate. -/
theorem patch_duplicate_name_accepted :
    lower "latte".data = lower "Latte".data ∧
    twoDrinks.db.head? = some ⟨1, "Latte".data, "small".data, 2⟩ ∧
    (partial_update_beverage twoDrinks 2 ⟨some "latte".data, none, none⟩).1
      = .ok ⟨2, "latte".data, "small".data, 3⟩ :=
  of_decide_eq_true (by with_unfolding_all rfl)

/-- C2 (amended): `patch` performs no duplicate-name re-check at all —
unlike `replace`, it can never fail with `ConflictError(DuplicateName)`,
for any state, id and partial candidate. -/
theorem patch_never_conflicts (s : StoreState) (bid : Nat)
    (u : UpdateCandidate) :
    (partial_update_beverage s bid u).1 ≠ .error .conflict := by
  unfold partial_update_beverage
  split
  · simp
  · split
    · simp
    · simp

/-- C3 counterexample: the claim is false.  Patching id 1 with the name
`" "` (one space, so the raw length check passes) is accepted, and the
stored name becomes the empty string — no `ValidationError(EmptyName)`
although the trimmed result is empty. -/
theorem patch_blank_name_stored :
    strip [' '] = ([] : Str) ∧
    (partial_update_beverage twoDrinks 1 ⟨some [' '], none, none⟩).1
      = .ok ⟨1, [], "small".data, 2⟩ ∧
    (partial_update_beverage twoDrinks 1 ⟨some [' '], none, none⟩).2.db
      = [⟨1, [], "small".data, 2⟩, ⟨2, "Mocha".data, "small".data, 3⟩] :=
  of_decide_eq_true (by with_unfolding_all rfl)

/-- Patching the first record with a given id, once it is located. -/
theorem patchFirstById_found {l1 : List BeverageRec} {b : BeverageRec}
    {l2 : List BeverageRec} {bid : Nat} {u : UpdateCandidate}
    (hb : b.id = bid) (hl1 : ∀ a ∈ l1, a.id ≠ bid) :
    patchFirstById (l1 ++ b :: l2) bid u =
      some (applyUpdate b u, l1 ++ applyUpdate b u :: l2) := by
  induction l1 with
  | nil => simp [patchFirstById, hb]
  | cons a rest ih =>
    have ha : a.id ≠ bid := hl1 a (by simp)
    have ihh := ih fun x hx => hl1 x (by simp [hx])
    simp [patchFirstById, ha, ihh]

/-- C3 (amended): `patch` validates each present field by the
`BeverageUpdate` rules — raw name length 1–100 (with no re-check that
the trimmed name is nonempty), size in the fixed set, price in
`(0, 100]` — and applies the present fields in place: the name stored
trimmed (possibly to the empty string), the size as given, the price
rounded to 2 decimals; absent fields and the id keep their prior
values. -/
theorem patch_applies_update_rules (s : StoreState) (bid : Nat)
    (u : UpdateCandidate) (l1 : List BeverageRec) (b : BeverageRec)
    (l2 : List BeverageRec) (hdb : s.db = l1 ++ b :: l2) (hb : b.id = bid)
    (hl1 : ∀ a ∈ l1, a.id ≠ bid)
    (hu : (∀ n, u.name = some n → 1 ≤ n.length ∧ n.length ≤ 100) ∧
          (∀ z, u.size = some z → isValidSize z = true) ∧
          (∀ p, u.price = some p → 0 < p ∧ p ≤ 100)) :
    partial_update_beverage s bid u =
      (.ok (applyUpdate b u), ⟨l1 ++ applyUpdate b u :: l2, s.nextId⟩) ∧
    (applyUpdate b u).id = b.id ∧
    (applyUpdate b u).name =
      (match u.name with | some n => strip n | none => b.name) ∧
    (applyUpdate b u).size =
      (match u.size with | some z => z | none => b.size) ∧
    (applyUpdate b u).price =
      (match u.price with | some p => round2 p | none => b.price) := by
  have hv : validateUpdate u = .ok u := (validateUpdate_ok_iff u).mpr hu
  constructor
  · unfold partial_update_beverage
    rw [hv]
    dsimp only
    rw [hdb, patchFirstById_found hb hl1]
  · obtain ⟨un, uz, up⟩ := u
    cases un <;> cases uz <;> cases up <;> simp [applyUpdate]

/-- Witness for C3 (amended): patching name and price together. -/
theorem patch_applies_update_rules_witness :
    partial_update_beverage twoDrinks 2 ⟨some " Flat White ".data, none, some 4⟩ =
      (.ok (applyUpdate ⟨2, "Mocha".data, "small".data, 3⟩
          ⟨some " Flat White ".data, none, some 4⟩),
        ⟨[⟨1, "Latte".data, "small".data, 2⟩] ++
          applyUpdate ⟨2, "Mocha".data, "small".data, 3⟩
            ⟨some " Flat White ".data, none, some 4⟩ :: [], 3⟩) ∧
    (applyUpdate ⟨2, "Mocha".data, "small".data, 3⟩
        ⟨some " Flat White ".data, none, some 4⟩).id = 2 ∧
    (applyUpdate ⟨2, "Mocha".data, "small".data, 3⟩
        ⟨some " Flat White ".data, none, some 4⟩).name = strip " Flat White ".data ∧
    (applyUpdate ⟨2, "Mocha".data, "small".data, 3⟩
        ⟨some " Flat White ".data, none, some 4⟩).size = "small".data ∧
    (applyUpdate ⟨2, "Mocha".data, "small".data, 3⟩
        ⟨some " Flat White ".data, none, some 4⟩).price = round2 4 :=
  patch_applies_update_rules twoDrinks 2 ⟨some " Flat White ".data, none, some 4⟩
    [⟨1, "Latte".data, "small".data, 2⟩] ⟨2, "Mocha".data, "small".data, 3⟩ []
    (by decide) (by decide) (by decide)
    ⟨fun n hn => by rw [Option.some.injEq] at hn; subst hn; decide,
     fun z hz => by exact absurd hz (by simp),
     fun p hp => by rw [Option.some.injEq] at hp; subst hp; norm_num⟩

/-- A failed duplicate scan means no stored record matches. -/
theorem hasLowerName_false {db : List BeverageRec} {nl : Str}
    (h : hasLowerName db nl = false) : ∀ x ∈ db, lower x.name ≠ nl := by
  intro x hx hEq
  have hT := (hasLowerName_iff db nl).mpr ⟨x, hx, hEq⟩
  rw [h] at hT
  exact Bool.false_ne_true hT

/-- A failed other-record duplicate scan means no other record matches. -/
theorem hasOtherLowerName_false {db : List BeverageRec} {bid : Nat} {nl : Str}
    (h : hasOtherLowerName db bid nl = false) :
    ∀ x ∈ db, x.id ≠ bid → lower x.name ≠ nl := by
  intro x hx hid hEq
  have hT := (hasOtherLowerName_iff db bid nl).mpr ⟨x, hx, hid, hEq⟩
  rw [h] at hT
  exact Bool.false_ne_true hT

/-- `create` preserves the store invariant. -/
theorem storeInv_create (s : StoreState) (h : StoreInv s) (c : Candidate) :
    StoreInv (add_beverage s c).2 := by
  obtain ⟨hids, hnames, hbelow⟩ := h
  cases hres : (add_beverage s c).1 with
  | error e =>
    rw [add_beverage_error_state hres]
    exact ⟨hids, hnames, hbelow⟩
  | ok r =>
    have h2 : add_beverage s c = (.ok r, (add_beverage s c).2) := by
      rw [← hres]
    obtain ⟨v, hv, hl, hr, hs2⟩ := add_beverage_ok h2
    have hnotin := hasLowerName_false hl
    rw [hs2]
    refine ⟨?_, ?_, ?_⟩
    · unfold uniqIds
      simp only [List.map_append, List.map_cons, List.map_nil]
      rw [List.nodup_middle, List.append_nil, List.nodup_cons]
      refine ⟨?_, hids⟩
      rw [hr]
      simp only [List.mem_map, not_exists, not_and]
      intro x hx hxid
      exact absurd hxid (Nat.ne_of_lt (hbelow x hx))
    · unfold uniqNames
      simp only [List.map_append, List.map_cons, List.map_nil]
      rw [List.nodup_middle, List.append_nil, List.nodup_cons]
      refine ⟨?_, hnames⟩
      simp only [List.mem_map, not_exists, not_and]
      intro x hx hxn
      have hrn : r.name = v.name := by rw [hr]
      rw [hrn] at hxn
      exact hnotin x hx hxn
    · intro x hx
      rcases List.mem_append.mp hx with hx1 | hx2
      · exact Nat.lt_succ_of_lt (hbelow x hx1)
      · have hxr : x = r := by simpa using hx2
        rw [hxr, hr]
        exact Nat.lt_succ_self _

/-- `replace` preserves the store invariant. -/
theorem storeInv_replace (s : StoreState) (h : StoreInv s) (bid : Nat)
    (c : Candidate) : StoreInv (update_beverage s bid c).2 := by
  obtain ⟨hids, hnames, hbelow⟩ := h
  cases hres : (update_beverage s bid c).1 with
  | error e =>
    rw [update_beverage_error_state hres]
    exact ⟨hids, hnames, hbelow⟩
  | ok r =>
    have h2 : update_beverage s bid c = (.ok r, (update_beverage s bid c).2) := by
      rw [← hres]
    obtain ⟨v, l1, b, l2, hv, hdb, hbid, hl1, ho, hr, hs2⟩ :=
      update_beverage_ok h2
    have hOther := hasOtherLowerName_false ho
    rw [hdb] at hids hnames
    have hmem : ∀ x, x ∈ l1 ++ b :: l2 → x ∈ s.db := fun x hx => by
      rw [hdb]; exact hx
    have hrid : r.id = b.id := by rw [hr, hbid]
    -- no record of l1 ++ l2 carries id `bid`
    have hidsMid : b.id ∉ (l1 ++ l2).map fun x => x.id := by
      unfold uniqIds at hids
      rw [List.map_append, List.map_cons, List.nodup_middle, List.nodup_cons,
        ← List.map_append] at hids
      exact hids.1
    have hne : ∀ x ∈ l1 ++ l2, x.id ≠ bid := by
      intro x hx hxe
      exact hidsMid (List.mem_map.mpr ⟨x, hx, by rw [hxe, hbid]⟩)
    rw [hs2]
    refine ⟨?_, ?_, ?_⟩
    · unfold uniqIds at hids ⊢
      simp only [List.map_append, List.map_cons] at hids ⊢
      rw [hrid]
      exact hids
    · unfold uniqNames at hnames ⊢
      simp only [List.map_append, List.map_cons] at hnames ⊢
      rw [List.nodup_middle, List.nodup_cons, ← List.map_append] at hnames ⊢
      refine ⟨?_, hnames.2⟩
      intro hcol
      obtain ⟨x, hx, hxn⟩ := List.mem_map.mp hcol
      have hxdb : x ∈ l1 ++ b :: l2 := by
        rcases List.mem_append.mp hx with h1 | h2
        · exact List.mem_append.mpr (Or.inl h1)
        · exact List.mem_append.mpr (Or.inr (List.mem_cons_of_mem b h2))
      have hrn : r.name = v.name := by rw [hr]
      rw [hrn] at hxn
      exact hOther x (hmem x hxdb) (hne x hx) hxn
    · intro x hx
      rcases List.mem_append.mp hx with h1 | h2
      · exact hbelow x (hmem x (List.mem_append.mpr (Or.inl h1)))
      · rcases List.mem_cons.mp h2 with hxr | h3
        · rw [hxr, hrid]
          exact hbelow b
            (hmem b (List.mem_append.mpr (Or.inr (List.mem_cons_self b l2))))
        · exact hbelow x
            (hmem x (List.mem_append.mpr (Or.inr (List.mem_cons_of_mem b h3))))

/-- `delete` preserves the store invariant. -/
theorem storeInv_delete (s : StoreState) (h : StoreInv s) (bid : Nat) :
    StoreInv (delete_beverage s bid).2 := by
  obtain ⟨hids, hnames, hbelow⟩ := h
  cases hres : (delete_beverage s bid).1 with
  | error e =>
    rw [delete_beverage_error_state hres]
    exact ⟨hids, hnames, hbelow⟩
  | ok u =>
    cases u
    have h2 : delete_beverage s bid = (.ok (), (delete_beverage s bid).2) := by
      rw [← hres]
    obtain ⟨l1, b, l2, hdb, hbid, hs2⟩ := delete_beverage_ok h2
    have hsub : (l1 ++ l2).Sublist (l1 ++ b :: l2) :=
      (List.sublist_cons_self b l2).append_left l1
    have hmem : ∀ x, x ∈ l1 ++ b :: l2 → x ∈ s.db := fun x hx => by
      rw [hdb]; exact hx
    rw [hs2]
    rw [hdb] at hids hnames
    refine ⟨?_, ?_, ?_⟩
    · unfold uniqIds at hids ⊢
      exact (hsub.map fun x => x.id).nodup hids
    · unfold uniqNames at hnames ⊢
      exact (hsub.map fun x => lower x.name).nodup hnames
    · intro x hx
      exact hbelow x (hmem x (hsub.mem hx))

/-- C1 counterexample: the claim is false for `patch`.  A two-record
store satisfying the invariant, patched with a name equal to the other
record's under case-insensitive comparison, ends with two records whose
names collide. -/
theorem patch_breaks_name_uniqueness :
    StoreInv twoDrinks ∧
    (partial_update_beverage twoDrinks 2 ⟨some "LaTTe".data, none, none⟩).1
      = .ok ⟨2, "LaTTe".data, "small".data, 3⟩ ∧
    ¬ uniqNames
      (applyState twoDrinks (.patch 2 ⟨some "LaTTe".data, none, none⟩)).db :=
  of_decide_eq_true (by with_unfolding_all rfl)

/-- C1 (amended): after every `create`, `replace`, `delete` and `reset`
on a state satisfying the store invariant, ids stay distinct, no two
records have case-insensitively equal names, and every id stays below
the counter.  `patch` is the one operation that does not preserve name
uniqueness (see the counterexample). -/
theorem non_patch_ops_preserve_invariant (s : StoreState) (h : StoreInv s) :
    (∀ c, StoreInv (applyState s (.create c))) ∧
    (∀ bid c, StoreInv (applyState s (.replace bid c))) ∧
    (∀ bid, StoreInv (applyState s (.del bid))) ∧
    StoreInv (applyState s .reset) :=
  ⟨fun c => storeInv_create s h c,
   fun bid c => storeInv_replace s h bid c,
   fun bid => storeInv_delete s h bid,
   show StoreInv initState by decide⟩

/-- Witness for C1 (amended): the two-record store. -/
theorem non_patch_ops_preserve_invariant_witness :
    StoreInv twoDrinks ∧
    ((∀ c, StoreInv (applyState twoDrinks (.create c))) ∧
     (∀ bid c, StoreInv (applyState twoDrinks (.replace bid c))) ∧
     (∀ bid, StoreInv (applyState twoDrinks (.del bid))) ∧
     StoreInv (applyState twoDrinks .reset)) :=
  ⟨of_decide_eq_true (by with_unfolding_all rfl),
   non_patch_ops_preserve_invariant twoDrinks
     (of_decide_eq_true (by with_unfolding_all rfl))⟩

/-- `replace` never touches the id counter. -/
theorem update_beverage_nextId (s : StoreState) (bid : Nat) (c : Candidate) :
    (update_beverage s bid c).2.nextId = s.nextId := by
  cases hres : (update_beverage s bid c).1 with
  | error e => rw [update_beverage_error_state hres]
  | ok r =>
    have h2 : update_beverage s bid c = (.ok r, (update_beverage s bid c).2) := by
      rw [← hres]
    obtain ⟨v, l1, b, l2, _, _, _, _, _, _, hs2⟩ := update_beverage_ok h2
    rw [hs2]

/-- `patch` never touches the id counter. -/
theorem partial_update_beverage_nextId (s : StoreState) (bid : Nat)
    (u : UpdateCandidate) :
    (partial_update_beverage s bid u).2.nextId = s.nextId := by
  cases hres : (partial_update_beverage s bid u).1 with
  | error e => rw [partial_update_beverage_error_state hres]
  | ok r =>
    have h2 : partial_update_beverage s bid u
        = (.ok r, (partial_update_beverage s bid u).2) := by
      rw [← hres]
    obtain ⟨l1, b, l2, _, _, _, _, _, hs2⟩ := partial_update_beverage_ok h2
    rw [hs2]

/-- `delete` never touches the id counter. -/
theorem delete_beverage_nextId (s : StoreState) (bid : Nat) :
    (delete_beverage s bid).2.nextId = s.nextId := by
  cases hres : (delete_beverage s bid).1 with
  | error e => rw [delete_beverage_error_state hres]
  | ok u =>
    cases u
    have h2 : delete_beverage s bid = (.ok (), (delete_beverage s bid).2) := by
      rw [← hres]
    obtain ⟨l1, b, l2, _, _, hs2⟩ := delete_beverage_ok h2
    rw [hs2]

/-- Every operation except `reset` leaves the counter no smaller. -/
theorem applyState_nextId_mono (s : StoreState) (op : Op)
    (hop : op ≠ Op.reset) : s.nextId ≤ (applyState s op).nextId := by
  cases op with
  | create c =>
    show s.nextId ≤ (add_beverage s c).2.nextId
    cases hres : (add_beverage s c).1 with
    | error e =>
      rw [add_beverage_error_state hres]
    | ok r =>
      have h2 : add_beverage s c = (.ok r, (add_beverage s c).2) := by
        rw [← hres]
      obtain ⟨v, _, _, _, hs2⟩ := add_beverage_ok h2
      rw [hs2]
      exact Nat.le_succ _
  | replace bid c => exact le_of_eq (update_beverage_nextId s bid c).symm
  | patch bid u => exact le_of_eq (partial_update_beverage_nextId s bid u).symm
  | del bid => exact le_of_eq (delete_beverage_nextId s bid).symm
  | reset => exact absurd rfl hop

/-- Every id a reset-free trace assigns is at least the current counter. -/
theorem assignedIds_lower_bound (ops : List Op) :
    ∀ s : StoreState, (∀ op ∈ ops, op ≠ Op.reset) →
      ∀ i ∈ assignedIds s ops, s.nextId ≤ i := by
  induction ops with
  | nil =>
    intro s _ i hi
    simp [assignedIds] at hi
  | cons op rest ih =>
    intro s hnr i hi
    have hmono := applyState_nextId_mono s op (hnr op (by simp))
    have hrest : ∀ op2 ∈ rest, op2 ≠ Op.reset := fun op2 h2 =>
      hnr op2 (by simp [h2])
    have htail := ih (applyState s op) hrest
    simp only [assignedIds, List.mem_append] at hi
    cases hi with
    | inr h2 => exact le_trans hmono (htail i h2)
    | inl h1 =>
      cases op with
      | create c =>
        dsimp only at h1
        cases hres : (add_beverage s c).1 with
        | ok r =>
          rw [hres] at h1
          simp at h1
          omega
        | error e =>
          rw [hres] at h1
          simp at h1
      | replace bid c => simp at h1
      | patch bid u => simp at h1
      | del bid => simp at h1
      | reset => simp at h1

/-- The ids assigned along a reset-free trace are strictly increasing. -/
theorem assignedIds_chain (ops : List Op) :
    ∀ s : StoreState, (∀ op ∈ ops, op ≠ Op.reset) →
      List.Chain' (· < ·) (assignedIds s ops) := by
  induction ops with
  | nil =>
    intro s _
    simp [assignedIds]
  | cons op rest ih =>
    intro s hnr
    have hrest : ∀ op2 ∈ rest, op2 ≠ Op.reset := fun op2 h2 =>
      hnr op2 (by simp [h2])
    have ihc := ih (applyState s op) hrest
    simp only [assignedIds]
    cases op with
    | create c =>
      dsimp only
      cases hres : (add_beverage s c).1 with
      | error e => simpa using ihc
      | ok r =>
        dsimp only
        rw [List.singleton_append, List.chain'_cons']
        refine ⟨?_, ihc⟩
        intro y hy
        have hy2 : y ∈ assignedIds (applyState s (Op.create c)) rest :=
          List.mem_of_mem_head? hy
        have hlb := assignedIds_lower_bound rest (applyState s (Op.create c))
          hrest y hy2
        have hnext : (applyState s (Op.create c)).nextId = s.nextId + 1 := by
          show (add_beverage s c).2.nextId = s.nextId + 1
          have h2 : add_beverage s c = (.ok r, (add_beverage s c).2) := by
            rw [← hres]
          obtain ⟨v, _, _, _, hs2⟩ := add_beverage_ok h2
          rw [hs2]
        omega
    | replace bid c => simpa using ihc
    | patch bid u => simpa using ihc
    | del bid => simpa using ihc
    | reset => simpa using ihc

/-- C5: successful creates return the current counter as id and bump the
counter by one; failed creates leave the whole state unchanged; replace,
patch and delete never change the counter; along any reset-free trace
the assigned ids are strictly increasing — an id freed by a delete is
never reused. -/
theorem identifier_assignment_monotone :
    (∀ s c r s2, add_beverage s c = (.ok r, s2) →
      r.id = s.nextId ∧ s2.nextId = s.nextId + 1) ∧
    (∀ s c e, (add_beverage s c).1 = .error e → (add_beverage s c).2 = s) ∧
    (∀ s bid c, (update_beverage s bid c).2.nextId = s.nextId) ∧
    (∀ s bid u, (partial_update_beverage s bid u).2.nextId = s.nextId) ∧
    (∀ s bid, (delete_beverage s bid).2.nextId = s.nextId) ∧
    (∀ s ops, (∀ op ∈ ops, op ≠ Op.reset) →
      List.Chain' (· < ·) (assignedIds s ops)) := by
  refine ⟨?_, ?_, update_beverage_nextId, partial_update_beverage_nextId,
    delete_beverage_nextId, fun s ops h => assignedIds_chain ops s h⟩
  · intro s c r s2 h
    obtain ⟨v, _, _, hr, hs2⟩ := add_beverage_ok h
    exact ⟨by rw [hr], by rw [hs2]⟩
  · intro s c e h
    exact add_beverage_error_state h

/-- Witness for C5: a create, create, delete, create trace from the
empty store. -/
theorem identifier_assignment_monotone_witness :
    List.Chain' (· < ·) (assignedIds initState
      [Op.create ⟨"Latte".data, "small".data, 2⟩,
       Op.create ⟨"Mocha".data, "small".data, 3⟩,
       Op.del 2,
       Op.create ⟨"Espresso".data, "small".data, 2⟩]) :=
  identifier_assignment_monotone.2.2.2.2.2 initState
    [Op.create ⟨"Latte".data, "small".data, 2⟩,
     Op.create ⟨"Mocha".data, "small".data, 3⟩,
     Op.del 2,
     Op.create ⟨"Espresso".data, "small".data, 2⟩] (by decide)

end VirtualCoffee
